import Mathlib

/-!
Shallow embedding of `VideoProcessor.capture_best_frames` from
`src/media.py` (RainDigest), together with proofs of the specification
claims about it.

Modelling conventions:
* OpenCV (`cv2`) and NumPy are external collaborators.  Their calls are
  parameters of an `Env` record: `read` models the pair
  `cap.set(CAP_PROP_POS_MSEC, t*1000); cap.read()` as a deterministic
  function of the seek time `t` (seconds; the millisecond conversion is a
  fixed bijection), returning `none` when `ret` is false; `gray` models
  `cv2.cvtColor(·, COLOR_BGR2GRAY)`; `canny lo hi` models
  `cv2.Canny(·, lo, hi)` returning the flattened edge map; `imwriteOk`
  models the boolean result of `cv2.imwrite` (which the Python code
  discards).  `np.mean` is computed concretely over ℚ.
* A raster frame is its byte content, `List Nat`.
* Python floats are modelled as ℚ; `int(x)` truncates toward zero.
* `video_path.exists()` and `cap.isOpened()` are the booleans
  `pathExists` and `capOpened` of the environment.
* The run result records the returned `saved_frames` list, the sequence
  of `cv2.imwrite` calls actually performed, and how many times
  `cap.release()` ran.
-/

namespace RainDigest

/-- A decoded raster frame: its byte content. -/
abbrev Frame := List Nat

/-- One element of the `timestamps` list: a Python dict read via
`item.get('timestamp', 0)` and `item.get('reason', 'key_moment')`;
a missing key is `none`. -/
structure Candidate where
  timestamp : Option Rat
  reason : Option String
deriving DecidableEq

/-- `item.get('timestamp', 0)`. -/
def Candidate.targetTime (c : Candidate) : Rat := c.timestamp.getD 0

/-- `item.get('reason', 'key_moment')`. -/
def Candidate.reasonText (c : Candidate) : String := c.reason.getD "key_moment"

/-- The external world of one `capture_best_frames` call: the video file,
the OpenCV decoder and filters, and the imwrite outcome.  All fields are
functions, so decoding and scoring are deterministic for a fixed file. -/
structure Env where
  pathExists : Bool
  capOpened : Bool
  read : Rat → Option Frame
  gray : Frame → List Nat
  canny : Nat → Nat → List Nat → List Nat
  imwriteOk : String → Frame → Bool

/-- `np.mean` over a flattened array of unsigned bytes (ℚ-valued;
NumPy yields NaN on an empty array, a case that cannot reach the code
because decoded frames are whole rasters — here division by zero gives 0). -/
def npMean (l : List Nat) : Rat := (l.sum : Rat) / (l.length : Rat)

/-- The information-density score of a decoded frame:
`np.mean(cv2.Canny(cv2.cvtColor(frame, COLOR_BGR2GRAY), 100, 200))`. -/
def scoreFrame (e : Env) (f : Frame) : Rat := npMean (e.canny 100 200 (e.gray f))

/-- The loop state `best_score`, `best_frame`, `best_time`. -/
structure ProbeBest where
  bestScore : Rat
  bestFrame : Option Frame
  bestTime : Rat
deriving DecidableEq

/-- `offsets = [0, 1.0, 1.5]` (line 209 of media.py). -/
def offsets : List Rat := [0, 1, 1.5]

/-- One iteration of the inner `for offset in offsets` loop:
seek to `target_time + offset`, read, score, and keep the frame if its
score is strictly greater than the best so far. -/
def probeStep (e : Env) (target : Rat) (acc : ProbeBest) (offset : Rat) : ProbeBest :=
  let check_time := target + offset
  match e.read check_time with
  | none => acc
  | some frame =>
      let score := scoreFrame e frame
      if acc.bestScore < score then ⟨score, some frame, check_time⟩ else acc

/-- The whole inner loop for one candidate, starting from
`best_score = -1`, `best_frame = None`, `best_time = target_time`. -/
def probeCandidate (e : Env) (target : Rat) : ProbeBest :=
  offsets.foldl (probeStep e target) ⟨-1, none, target⟩

/-- Python `int(x)` on a float: truncation toward zero. -/
def pyInt (q : Rat) : Int := q.num.tdiv (q.den : Int)

/-- `"".join([c for c in reason if c.isalnum()])[:20]`
(Python `str.isalnum` restricted to ASCII alphanumerics). -/
def safeReason (reason : String) : String :=
  String.mk ((reason.data.filter Char.isAlphanum).take 20)

/-- One `cv2.imwrite(str(out_path), best_frame)` call:
`out_path = output_dir / frame_name`. -/
structure FileWrite where
  dir : String
  name : String
  frame : Frame
deriving DecidableEq

/-- `str(output_dir / frame_name)`. -/
def joinPath (dir name : String) : String := dir ++ "/" ++ name

/-- The body of the outer `for item in timestamps` loop for a single
candidate: probe, and if a best frame exists, build the imwrite call
with `frame_name = f"{int(best_time)}_{safe_reason}.jpg"`;
`none` means the candidate is dropped. -/
def selectOne (e : Env) (dir : String) (item : Candidate) : Option FileWrite :=
  let pb := probeCandidate e item.targetTime
  match pb.bestFrame with
  | none => none
  | some f =>
      some ⟨dir, toString (pyInt pb.bestTime) ++ "_" ++ safeReason item.reasonText
              ++ ".jpg", f⟩

/-- The outer loop: for each candidate in order, probe and, when a best
frame exists, perform the imwrite and append the path to `saved_frames`. -/
def captureLoop (e : Env) (dir : String) : List Candidate → List String × List FileWrite
  | [] => ([], [])
  | item :: rest =>
      match selectOne e dir item with
      | none => captureLoop e dir rest
      | some w =>
          let tail := captureLoop e dir rest
          (joinPath w.dir w.name :: tail.1, w :: tail.2)

/-- What one call to `capture_best_frames` returns and does:
the returned `saved_frames`, the imwrite calls in order, and the number
of `cap.release()` calls. -/
structure RunResult where
  savedFrames : List String
  writes : List FileWrite
  releases : Nat
deriving DecidableEq

/-- `capture_best_frames(video_path, timestamps, output_dir)`
(media.py lines 181-237).  `if not cv2 or not video_path.exists():
return []` (the imported module `cv2` is always truthy); then
`if not cap.isOpened(): return []` — neither early return reaches
`cap.release()`; otherwise the candidate loop runs and the handle is
released exactly once at the end. -/
def capture_best_frames (e : Env) (timestamps : List Candidate)
    (output_dir : String) : RunResult :=
  if e.pathExists = false then ⟨[], [], 0⟩
  else if e.capOpened = false then ⟨[], [], 0⟩
  else
    let body := captureLoop e output_dir timestamps
    ⟨body.1, body.2, 1⟩

/-! ### Spec-side view of the probing loop

`decodedProbes` lists, in offset order, the probes that actually decode:
their seek time, edge-density score and frame.  It follows the spec's
words: probe the fixed offsets `{0, 1.0, 1.5}` relative to the target and
score each decoded frame by the mean of the Canny(100, 200) edge map of
the grayscale frame. -/

/-- One successfully decoded probe: seek time, score, frame. -/
structure Probe where
  time : Rat
  score : Rat
  frame : Frame
deriving DecidableEq, Inhabited

/-- The probes of one candidate that decode, in offset order. -/
def decodedProbes (e : Env) (target : Rat) : List Probe :=
  offsets.filterMap fun off =>
    (e.read (target + off)).map fun f => ⟨target + off, scoreFrame e f, f⟩

/-- The comparison step of the loop, lifted to decoded probes. -/
def stepP (acc : ProbeBest) (p : Probe) : ProbeBest :=
  if acc.bestScore < p.score then ⟨p.score, some p.frame, p.time⟩ else acc

/-- First maximum of a nonempty probe list `a :: l`: keep the current
best unless a later probe scores strictly higher. -/
def bestFrom (a : Probe) (l : List Probe) : Probe :=
  l.foldl (fun b p => if b.score < p.score then p else b) a

/-- The probe state a chosen probe puts the loop in. -/
def stateOf (p : Probe) : ProbeBest := ⟨p.score, some p.frame, p.time⟩

/-- Sanitized slice of `reason`, following the spec's words: only its
alphanumeric characters, truncated to at most 20 characters. -/
def specSanitized (reason : String) : String :=
  String.mk ((reason.data.filter Char.isAlphanum).take 20)

/-- Filename following the spec's words: the truncated integer second of
the chosen time, an underscore, the sanitized reason slice, and the
`.jpg` extension. -/
def specFileName (second : Int) (reason : String) : String :=
  toString second ++ "_" ++ specSanitized reason ++ ".jpg"

/-- Whether an imwrite call actually persisted its file (the boolean
`cv2.imwrite` returns, which the code never checks). -/
def writeSucceeds (e : Env) (w : FileWrite) : Bool :=
  e.imwriteOk (joinPath w.dir w.name) w.frame

/-- The paths of the files a run actually wrote: its imwrite calls whose
result was true. -/
def persistedPaths (e : Env) (r : RunResult) : List String :=
  (r.writes.filter (writeSucceeds e)).map fun w => joinPath w.dir w.name

/-- The file content at path `p` after a sequence of writes: the last
write to `p` overwrites the earlier ones. -/
def fsAfter (ws : List FileWrite) (p : String) : Option Frame :=
  ws.foldl (fun acc w => if joinPath w.dir w.name = p then some w.frame else acc) none

/-- A concrete opened video that decodes one frame at second 5 and on
which every imwrite fails (returns false), e.g. a full disk. -/
def cEnvNoWrite : Env where
  pathExists := true
  capOpened := true
  read := fun t => if t = 5 then some [7] else none
  gray := fun f => f
  canny := fun _ _ l => l
  imwriteOk := fun _ _ => false

/-- A concrete opened video on which every probe fails to decode. -/
def wEnv : Env where
  pathExists := true
  capOpened := true
  read := fun _ => none
  gray := fun f => f
  canny := fun _ _ l => l
  imwriteOk := fun _ _ => true

/-- The same environment with a missing video file. -/
def wEnvClosed : Env := { wEnv with pathExists := false }

/-- A concrete opened video decoding distinct frames at seconds 10 and
10.5, so that candidates targeting those times collide on the filename
`10_a.jpg`. -/
def collideEnv : Env where
  pathExists := true
  capOpened := true
  read := fun t => if t = 10 then some [1] else if t = 10.5 then some [2] else none
  gray := fun f => f
  canny := fun _ _ l => l
  imwriteOk := fun _ _ => true

/-- The two colliding candidates: both truncate to second 10 and share
the sanitized reason slice `a`. -/
def collideCandidates : List Candidate := [⟨some 10, some "a"⟩, ⟨some 10.5, some "a"⟩]

lemma probeStep_eq (e : Env) (target : Rat) (acc : ProbeBest) (off : Rat) :
    probeStep e target acc off =
      match e.read (target + off) with
      | none => acc
      | some f => stepP acc ⟨target + off, scoreFrame e f, f⟩ := by
  cases h : e.read (target + off) <;> simp [probeStep, stepP, h]

/-- Fusing the offset loop with the decoded-probe list: iterating
`probeStep` over any offset list equals iterating `stepP` over the probes
of that list that decode. -/
lemma foldl_probeStep_eq (e : Env) (target : Rat) :
    ∀ (offs : List Rat) (acc : ProbeBest),
      offs.foldl (probeStep e target) acc =
        (offs.filterMap fun off =>
          (e.read (target + off)).map fun f =>
            Probe.mk (target + off) (scoreFrame e f) f).foldl stepP acc := by
  intro offs
  induction offs with
  | nil => intro acc; rfl
  | cons o t ih =>
      intro acc
      rw [List.foldl_cons, List.filterMap_cons, probeStep_eq]
      cases h : e.read (target + o) with
      | none => simp only [h]; exact ih acc
      | some f =>
          simp only [h, Option.map]
          rw [List.foldl_cons]
          exact ih _

lemma probeCandidate_eq_foldP (e : Env) (target : Rat) :
    probeCandidate e target = (decodedProbes e target).foldl stepP ⟨-1, none, target⟩ := by
  rw [probeCandidate, foldl_probeStep_eq]; rfl

/-- Every edge-density score is non-negative: it is a mean of unsigned
byte values. -/
lemma scoreFrame_nonneg (e : Env) (f : Frame) : 0 ≤ scoreFrame e f := by
  unfold scoreFrame npMean
  positivity

lemma decodedProbes_score_nonneg (e : Env) (target : Rat) :
    ∀ p ∈ decodedProbes e target, 0 ≤ p.score := by
  intro p hp
  rcases List.mem_filterMap.mp hp with ⟨off, _, hoff⟩
  rcases Option.map_eq_some.mp hoff with ⟨f, _, rfl⟩
  exact scoreFrame_nonneg e f

/-- Once the loop state holds a probe, folding `stepP` computes the
first maximum. -/
lemma foldl_stepP_state (l : List Probe) :
    ∀ a : Probe, l.foldl stepP (stateOf a) = stateOf (bestFrom a l) := by
  induction l with
  | nil => intro a; rfl
  | cons x t ih =>
      intro a
      rw [List.foldl_cons, bestFrom, List.foldl_cons]
      by_cases h : a.score < x.score
      · have h1 : stepP (stateOf a) x = stateOf x := by simp [stepP, stateOf, h]
        rw [h1, ih x, bestFrom, if_pos]
        exact h
      · have h1 : stepP (stateOf a) x = stateOf a := by simp [stepP, stateOf, h]
        rw [h1, ih a, bestFrom, if_neg]
        exact h

/-- `bestFrom a l` splits `a :: l` into strictly lower-scoring probes
before it and at-most-equal-scoring probes after it: it is the first
probe attaining the maximum score. -/
lemma bestFrom_split (l : List Probe) :
    ∀ a : Probe, ∃ l₁ l₂, a :: l = l₁ ++ bestFrom a l :: l₂ ∧
      (∀ q ∈ l₁, q.score < (bestFrom a l).score) ∧
      (∀ q ∈ l₂, q.score ≤ (bestFrom a l).score) := by
  induction l with
  | nil => exact fun a => ⟨[], [], rfl, by simp, by simp⟩
  | cons x t ih =>
      intro a
      by_cases h : a.score < x.score
      · have hb : bestFrom a (x :: t) = bestFrom x t := by
          rw [bestFrom, List.foldl_cons, if_pos h]; rfl
        rw [hb]
        obtain ⟨l₁, l₂, heq, h₁, h₂⟩ := ih x
        have hax : a.score < (bestFrom x t).score := by
          cases l₁ with
          | nil =>
              have hx : x = bestFrom x t := by
                simpa using congrArg (fun s => s.headI) heq
              exact hx ▸ h
          | cons y l₁' =>
              have hy : y = x := by
                have := congrArg (fun s => s.headI) heq
                simp at this
                exact this.symm
              exact lt_trans h (hy ▸ h₁ y (List.mem_cons_self y l₁'))
        refine ⟨a :: l₁, l₂, ?_, ?_, h₂⟩
        · rw [List.cons_append, ← heq]
        · intro q hq
          rcases List.mem_cons.mp hq with rfl | hq
          · exact hax
          · exact h₁ q hq
      · have hb : bestFrom a (x :: t) = bestFrom a t := by
          rw [bestFrom, List.foldl_cons, if_neg h]; rfl
        rw [hb]
        obtain ⟨l₁, l₂, heq, h₁, h₂⟩ := ih a
        cases l₁ with
        | nil =>
            have ha : a = bestFrom a t := by
              simpa using congrArg (fun s => s.headI) heq
            have ht : t = l₂ := by simpa using congrArg List.tail heq
            refine ⟨[], x :: t, by rw [← ha, List.nil_append], by simp, ?_⟩
            intro q hq
            rcases List.mem_cons.mp hq with rfl | hq
            · rw [← ha]; exact le_of_not_lt h
            · exact h₂ q (ht ▸ hq)
        | cons y l₁' =>
            have hy : y = a := by
              have := congrArg (fun s => s.headI) heq
              simp at this
              exact this.symm
            have ht : t = l₁' ++ bestFrom a t :: l₂ := by
              simpa using congrArg List.tail heq
            have halt : a.score < (bestFrom a t).score :=
              hy ▸ h₁ y (List.mem_cons_self y l₁')
            refine ⟨a :: x :: l₁', l₂, ?_, ?_, h₂⟩
            · rw [List.cons_append, List.cons_append, ← ht]
            · intro q hq
              rcases List.mem_cons.mp hq with rfl | hq
              · exact halt
              · rcases List.mem_cons.mp hq with rfl | hq
                · exact lt_of_le_of_lt (le_of_not_lt h) halt
                · exact h₁ q (hy ▸ List.mem_cons_of_mem y hq)

lemma probeCandidate_of_nil (e : Env) (target : Rat)
    (h : decodedProbes e target = []) :
    probeCandidate e target = ⟨-1, none, target⟩ := by
  rw [probeCandidate_eq_foldP, h]; rfl

lemma probeCandidate_of_cons (e : Env) (target : Rat) (p : Probe) (t : List Probe)
    (h : decodedProbes e target = p :: t) :
    probeCandidate e target = stateOf (bestFrom p t) := by
  have hp : 0 ≤ p.score :=
    decodedProbes_score_nonneg e target p (h ▸ List.mem_cons_self p t)
  have hstep : stepP ⟨-1, none, target⟩ p = stateOf p := by
    rw [stepP, if_pos]
    · rfl
    · show (-1 : Rat) < p.score
      linarith
  rw [probeCandidate_eq_foldP, h, List.foldl_cons, hstep, foldl_stepP_state]

/-- C1: for every candidate, the code probes exactly the offsets
`{0, 1.0, 1.5}` relative to the target (the decoded ones are
`decodedProbes`), scores each decoded frame by the mean intensity of the
Canny(100, 200) edge map of its grayscale conversion (`scoreFrame`,
recorded in each probe), and the loop keeps the probe with the strictly
highest score, ties resolved to the first-seen (smallest) offset: the
chosen probe splits the decoded list into strictly lower-scoring probes
before it and at-most-equal probes after it. -/
theorem C1_fixed_offsets_edge_score_first_max (e : Env) (target : Rat) :
    (decodedProbes e target = [] ∧ (probeCandidate e target).bestFrame = none) ∨
    (∃ p l₁ l₂, decodedProbes e target = l₁ ++ p :: l₂ ∧
      probeCandidate e target = ⟨p.score, some p.frame, p.time⟩ ∧
      (∀ q ∈ l₁, q.score < p.score) ∧
      (∀ q ∈ l₂, q.score ≤ p.score)) := by
  cases hl : decodedProbes e target with
  | nil => exact Or.inl ⟨rfl, by rw [probeCandidate_of_nil e target hl]⟩
  | cons p t =>
      obtain ⟨l₁, l₂, heq, h₁, h₂⟩ := bestFrom_split t p
      exact Or.inr ⟨bestFrom p t, l₁, l₂, heq,
        probeCandidate_of_cons e target p t hl, h₁, h₂⟩

lemma bestFrame_eq_none_iff (e : Env) (target : Rat) :
    (probeCandidate e target).bestFrame = none ↔ decodedProbes e target = [] := by
  constructor
  · intro h
    cases hl : decodedProbes e target with
    | nil => rfl
    | cons p t =>
        rw [probeCandidate_of_cons e target p t hl] at h
        exact absurd h (by simp [stateOf])
  · intro h
    rw [probeCandidate_of_nil e target h]

lemma selectOne_isSome_iff (e : Env) (dir : String) (item : Candidate) :
    (selectOne e dir item).isSome = true ↔
      (probeCandidate e item.targetTime).bestFrame.isSome = true := by
  rw [selectOne]
  cases h : (probeCandidate e item.targetTime).bestFrame <;> simp [h]

/-- C9: a Selected Frame is produced for a candidate exactly when at
least one of the three probes decodes: every edge-density score is a
mean of non-negative byte values, hence at least `0`, which beats the
initial `best_score = -1`; even an all-zero edge map (score `0`) is kept. -/
theorem C9_selected_iff_some_probe_decodes (e : Env) (dir : String) (item : Candidate) :
    (∀ f : Frame, 0 ≤ scoreFrame e f) ∧
    ((selectOne e dir item).isSome = true ↔
      ∃ off ∈ offsets, (e.read (item.targetTime + off)).isSome = true) := by
  refine ⟨scoreFrame_nonneg e, ?_⟩
  rw [selectOne_isSome_iff]
  constructor
  · intro h
    by_contra hno
    push_neg at hno
    have hnil : decodedProbes e item.targetTime = [] := by
      rw [decodedProbes, List.filterMap_eq_nil_iff]
      intro off hoff
      cases hr : e.read (item.targetTime + off) with
      | none => rfl
      | some f => exact absurd (by rw [hr]; rfl) (hno off hoff)
    have hb := (bestFrame_eq_none_iff e item.targetTime).mpr hnil
    rw [hb] at h
    simp at h
  · rintro ⟨off, hoff, hread⟩
    obtain ⟨f, hf⟩ := Option.isSome_iff_exists.mp hread
    have hmem : (⟨item.targetTime + off, scoreFrame e f, f⟩ : Probe) ∈
        decodedProbes e item.targetTime := by
      rw [decodedProbes, List.mem_filterMap]
      exact ⟨off, hoff, by rw [hf]; rfl⟩
    cases hb : (probeCandidate e item.targetTime).bestFrame with
    | some f2 => rfl
    | none =>
        have hnil := (bestFrame_eq_none_iff e item.targetTime).mp hb
        rw [hnil] at hmem
        exact absurd hmem (List.not_mem_nil _)

/-! ### Run-level lemmas -/

lemma captureLoop_eq (e : Env) (dir : String) :
    ∀ cands : List Candidate, captureLoop e dir cands =
      ((cands.filterMap (selectOne e dir)).map (fun w => joinPath w.dir w.name),
       cands.filterMap (selectOne e dir)) := by
  intro cands
  induction cands with
  | nil => rfl
  | cons item rest ih =>
      cases h : selectOne e dir item with
      | none => simp [captureLoop, h, ih]
      | some w => simp [captureLoop, h, ih]

lemma capture_open (e : Env) (cands : List Candidate) (dir : String)
    (h1 : e.pathExists = true) (h2 : e.capOpened = true) :
    capture_best_frames e cands dir =
      ⟨(cands.filterMap (selectOne e dir)).map (fun w => joinPath w.dir w.name),
       cands.filterMap (selectOne e dir), 1⟩ := by
  rw [capture_best_frames, captureLoop_eq]
  simp [h1, h2]

lemma capture_not_open (e : Env) (cands : List Candidate) (dir : String)
    (h : e.pathExists = false ∨ e.capOpened = false) :
    capture_best_frames e cands dir = ⟨[], [], 0⟩ := by
  rcases h with h | h
  · rw [capture_best_frames, if_pos h]
  · cases hp : e.pathExists with
    | false => rw [capture_best_frames, if_pos hp]
    | true =>
        rw [capture_best_frames, if_neg (by rw [hp]; simp), if_pos h]

lemma selectOne_eq_none_of_allmiss (e : Env) (dir : String) (item : Candidate)
    (h : ∀ off ∈ offsets, e.read (item.targetTime + off) = none) :
    selectOne e dir item = none := by
  have hnil : decodedProbes e item.targetTime = [] := by
    rw [decodedProbes, List.filterMap_eq_nil_iff]
    intro off hoff
    rw [h off hoff]
    rfl
  have hb := (bestFrame_eq_none_iff e item.targetTime).mpr hnil
  rw [selectOne, hb]

lemma selectOne_name_frame (e : Env) (d₁ d₂ : String) (item : Candidate) :
    (selectOne e d₁ item).map (fun w => (w.name, w.frame)) =
      (selectOne e d₂ item).map (fun w => (w.name, w.frame)) := by
  cases h : (probeCandidate e item.targetTime).bestFrame <;> simp [selectOne, h]

/-! ### The claims -/

/-- C2: the result never has more entries than the candidate list, and a
candidate all of whose probes fail to decode (e.g. a target time at or
beyond the video duration) is dropped without error and without affecting
the other candidates. -/
theorem C2_result_le_input_and_allmiss_dropped (e : Env) (cands : List Candidate)
    (dir : String) (c : Candidate) (l₁ l₂ : List Candidate) :
    (capture_best_frames e cands dir).savedFrames.length ≤ cands.length ∧
    ((∀ off ∈ offsets, e.read (c.targetTime + off) = none) →
      capture_best_frames e (l₁ ++ c :: l₂) dir = capture_best_frames e (l₁ ++ l₂) dir) := by
  constructor
  · cases hp : e.pathExists with
    | false => rw [capture_not_open e cands dir (Or.inl hp)]; simp
    | true =>
        cases hc : e.capOpened with
        | false => rw [capture_not_open e cands dir (Or.inr hc)]; simp
        | true =>
            rw [capture_open e cands dir hp hc]
            simpa using List.length_filterMap_le (selectOne e dir) cands
  · intro h
    have hnone := selectOne_eq_none_of_allmiss e dir c h
    cases hp : e.pathExists with
    | false =>
        rw [capture_not_open _ _ _ (Or.inl hp), capture_not_open _ _ _ (Or.inl hp)]
    | true =>
        cases hc : e.capOpened with
        | false =>
            rw [capture_not_open _ _ _ (Or.inr hc), capture_not_open _ _ _ (Or.inr hc)]
        | true =>
            rw [capture_open _ _ _ hp hc, capture_open _ _ _ hp hc]
            simp [List.filterMap_append, List.filterMap_cons, hnone]

/-- C3: if the video path does not exist or the video cannot be opened
for decoding, the call returns the empty result, performing no write and
no release; the embedding is a total function, so nothing is raised past
the call boundary. -/
theorem C3_open_failure_yields_empty (e : Env) (cands : List Candidate) (dir : String)
    (h : e.pathExists = false ∨ e.capOpened = false) :
    capture_best_frames e cands dir = ⟨[], [], 0⟩ :=
  capture_not_open e cands dir h

theorem C3_open_failure_yields_empty_witness :
    capture_best_frames wEnvClosed [⟨some 1, some "r"⟩] "d" = ⟨[], [], 0⟩ :=
  C3_open_failure_yields_empty wEnvClosed [⟨some 1, some "r"⟩] "d" (Or.inl rfl)

/-- C4 (amended): every returned path corresponds, in order, to exactly
one imwrite call on that path in the output directory; the boolean
result of the write is never checked, so a path can be returned even
when persistence failed without raising. -/
theorem C4_returned_paths_are_attempted_writes (e : Env) (cands : List Candidate)
    (dir : String) :
    (capture_best_frames e cands dir).savedFrames =
      (capture_best_frames e cands dir).writes.map (fun w => joinPath w.dir w.name) := by
  cases hp : e.pathExists with
  | false => rw [capture_not_open _ _ _ (Or.inl hp)]; rfl
  | true =>
      cases hc : e.capOpened with
      | false => rw [capture_not_open _ _ _ (Or.inr hc)]; rfl
      | true => rw [capture_open _ _ _ hp hc]

lemma run_cEnvNoWrite :
    capture_best_frames cEnvNoWrite [⟨some 5, some "x"⟩] "d" =
      ⟨["d/5_x.jpg"], [⟨"d", "5_x.jpg", [7]⟩], 1⟩ := by
  norm_num [capture_best_frames, captureLoop, selectOne, probeCandidate, offsets, probeStep,
    cEnvNoWrite, scoreFrame, npMean, safeReason, pyInt, joinPath, Candidate.targetTime,
    Candidate.reasonText]
  and_intros <;> rfl

/-- C4 is false as stated: on a video decoding one frame, with every
`cv2.imwrite` reporting failure (returning false, e.g. a full disk), the
path is still returned although no file was written. -/
theorem C4_counterexample_path_without_persisted_file :
    ¬ (∀ p ∈ (capture_best_frames cEnvNoWrite [⟨some 5, some "x"⟩] "d").savedFrames,
        p ∈ persistedPaths cEnvNoWrite
          (capture_best_frames cEnvNoWrite [⟨some 5, some "x"⟩] "d")) := by
  rw [run_cEnvNoWrite]
  intro h
  have hmem := h "d/5_x.jpg" (List.mem_singleton_self _)
  simp [persistedPaths, writeSucceeds, cEnvNoWrite, joinPath] at hmem

/-- C5: once the video opens, no per-candidate failure aborts the call:
every candidate of the list is resolved (the writes are the filterMap of
the whole input) and the decode handle is released exactly once at the
end, whatever the per-candidate decode outcomes were. -/
theorem C5_no_candidate_aborts_and_single_release (e : Env) (cands : List Candidate)
    (dir : String) (h1 : e.pathExists = true) (h2 : e.capOpened = true) :
    (capture_best_frames e cands dir).writes = cands.filterMap (selectOne e dir) ∧
    (capture_best_frames e cands dir).releases = 1 := by
  rw [capture_open e cands dir h1 h2]
  exact ⟨rfl, rfl⟩

theorem C5_no_candidate_aborts_and_single_release_witness :
    (capture_best_frames wEnv [⟨some 1, some "r"⟩] "d").writes
        = [(⟨some 1, some "r"⟩ : Candidate)].filterMap (selectOne wEnv "d") ∧
    (capture_best_frames wEnv [⟨some 1, some "r"⟩] "d").releases = 1 :=
  C5_no_candidate_aborts_and_single_release wEnv [⟨some 1, some "r"⟩] "d" rfl rfl

/-- C6: two runs on the same video file and candidate list with distinct
output directories perform writes with identical filenames and identical
frame bytes, in the same order: decoding and scoring are functions of
the seek position only. -/
theorem C6_repeat_run_byte_identical (e : Env) (cands : List Candidate) (d₁ d₂ : String) :
    (capture_best_frames e cands d₁).writes.map (fun w => (w.name, w.frame)) =
      (capture_best_frames e cands d₂).writes.map (fun w => (w.name, w.frame)) := by
  cases hp : e.pathExists with
  | false =>
      rw [capture_not_open _ _ _ (Or.inl hp), capture_not_open _ _ _ (Or.inl hp)]
  | true =>
      cases hc : e.capOpened with
      | false =>
          rw [capture_not_open _ _ _ (Or.inr hc), capture_not_open _ _ _ (Or.inr hc)]
      | true =>
          rw [capture_open _ _ _ hp hc, capture_open _ _ _ hp hc]
          simp only [List.map_filterMap]
          exact List.filterMap_congr (fun item _ => selectOne_name_frame e d₁ d₂ item)

/-- C7: candidates are processed strictly in input order, each fully
resolved before the next begins: the run on `item :: rest` is the
per-candidate outcome of `item` followed by the run on `rest`, and the
returned sequence is the in-order filterMap of the input list. -/
theorem C7_input_order_preserved (e : Env) (item : Candidate) (rest : List Candidate)
    (dir : String) (h1 : e.pathExists = true) (h2 : e.capOpened = true) :
    (capture_best_frames e (item :: rest) dir).savedFrames =
      ((selectOne e dir item).toList.map fun w => joinPath w.dir w.name) ++
        (capture_best_frames e rest dir).savedFrames ∧
    (capture_best_frames e (item :: rest) dir).writes =
      (selectOne e dir item).toList ++ (capture_best_frames e rest dir).writes ∧
    ∀ cands : List Candidate, (capture_best_frames e cands dir).savedFrames =
      (cands.filterMap (selectOne e dir)).map fun w => joinPath w.dir w.name := by
  refine ⟨?_, ?_, ?_⟩
  · rw [capture_open _ _ _ h1 h2, capture_open _ _ _ h1 h2]
    cases h : selectOne e dir item <;> simp [List.filterMap_cons, h]
  · rw [capture_open _ _ _ h1 h2, capture_open _ _ _ h1 h2]
    cases h : selectOne e dir item <;> simp [List.filterMap_cons, h]
  · intro cands
    rw [capture_open _ _ _ h1 h2]

theorem C7_input_order_preserved_witness :
    (capture_best_frames wEnv [⟨some 1, some "r"⟩] "d").savedFrames =
      ((selectOne wEnv "d" ⟨some 1, some "r"⟩).toList.map fun w => joinPath w.dir w.name) ++
        (capture_best_frames wEnv [] "d").savedFrames ∧
    (capture_best_frames wEnv [⟨some 1, some "r"⟩] "d").writes =
      (selectOne wEnv "d" ⟨some 1, some "r"⟩).toList ++
        (capture_best_frames wEnv [] "d").writes ∧
    ∀ cands : List Candidate, (capture_best_frames wEnv cands "d").savedFrames =
      (cands.filterMap (selectOne wEnv "d")).map fun w => joinPath w.dir w.name :=
  C7_input_order_preserved wEnv ⟨some 1, some "r"⟩ [] "d" rfl rfl

/-- C8: every imwrite performed by a run targets the output directory and
uses the filename the spec describes: the truncated integer second of the
chosen time, an underscore, the alphanumeric-only slice of the source
candidate's reason truncated to 20 characters, and the `.jpg` extension. -/
theorem C8_filename_format (e : Env) (cands : List Candidate) (dir : String)
    (w : FileWrite) (hw : w ∈ (capture_best_frames e cands dir).writes) :
    ∃ item ∈ cands, w.dir = dir ∧
      w.name = specFileName (pyInt (probeCandidate e item.targetTime).bestTime)
        item.reasonText := by
  cases hp : e.pathExists with
  | false =>
      rw [capture_not_open _ _ _ (Or.inl hp)] at hw
      exact absurd hw (List.not_mem_nil _)
  | true =>
      cases hc : e.capOpened with
      | false =>
          rw [capture_not_open _ _ _ (Or.inr hc)] at hw
          exact absurd hw (List.not_mem_nil _)
      | true =>
          rw [capture_open _ _ _ hp hc] at hw
          obtain ⟨item, hitem, hsel⟩ := List.mem_filterMap.mp hw
          refine ⟨item, hitem, ?_⟩
          cases hb : (probeCandidate e item.targetTime).bestFrame with
          | none => rw [selectOne, hb] at hsel; exact absurd hsel (by simp)
          | some f =>
              simp only [selectOne, hb] at hsel
              have hw2 := Option.some.inj hsel
              rw [← hw2]
              exact ⟨rfl, rfl⟩

theorem C8_filename_format_witness :
    ∃ item ∈ [(⟨some 5, some "x"⟩ : Candidate)],
      (FileWrite.mk "d" "5_x.jpg" [7]).dir = "d" ∧
      (FileWrite.mk "d" "5_x.jpg" [7]).name =
        specFileName (pyInt (probeCandidate cEnvNoWrite item.targetTime).bestTime)
          item.reasonText :=
  C8_filename_format cEnvNoWrite [⟨some 5, some "x"⟩] "d" ⟨"d", "5_x.jpg", [7]⟩
    (by rw [run_cEnvNoWrite]; exact List.mem_singleton_self _)

lemma run_collide :
    capture_best_frames collideEnv collideCandidates "out" =
      ⟨["out/10_a.jpg", "out/10_a.jpg"],
       [⟨"out", "10_a.jpg", [1]⟩, ⟨"out", "10_a.jpg", [2]⟩], 1⟩ := by
  norm_num [capture_best_frames, captureLoop, selectOne, probeCandidate, offsets, probeStep,
    collideEnv, collideCandidates, scoreFrame, npMean, safeReason, pyInt, joinPath,
    Candidate.targetTime, Candidate.reasonText]
  and_intros <;> rfl

/-- C10: two candidates (targets 10 and 10.5, both reasons `a`) collide
on the filename `10_a.jpg`: the same path is returned twice, the later
write overwrites the earlier distinct frame (the surviving content is the
second frame), and the number of distinct files written is strictly less
than the length of the returned sequence. -/
theorem C10_filename_collision_overwrite :
    (capture_best_frames collideEnv collideCandidates "out").savedFrames =
      ["out/10_a.jpg", "out/10_a.jpg"] ∧
    (capture_best_frames collideEnv collideCandidates "out").writes =
      [⟨"out", "10_a.jpg", [1]⟩, ⟨"out", "10_a.jpg", [2]⟩] ∧
    fsAfter (capture_best_frames collideEnv collideCandidates "out").writes
      "out/10_a.jpg" = some [2] ∧
    ([1] : Frame) ≠ [2] ∧
    (capture_best_frames collideEnv collideCandidates "out").savedFrames.dedup.length <
      (capture_best_frames collideEnv collideCandidates "out").savedFrames.length := by
  rw [run_collide]
  refine ⟨rfl, rfl, by decide, by decide, by decide⟩

end RainDigest
